import Mathlib

/-!
Verification of the offer-approval reconciliation pipeline of the
`tayyib-restaurant-analytics` repository.

The development shallowly embeds the pipeline's Python source:

* `src/admin_offer_approval.py` — `get_offer_type_id`, `insert_offer_to_db`
  and the batch loop of `approve_offers`;
* `src/utils/google_sheets.py` — `get_pending_offers_from_sheet` and
  `sync_offers_with_db`;
* `src/utils/queries.py` — `check_offer_exists_in_db`.

Modelling conventions:

* Spreadsheet cells are strings; a JSON-encoded cell is modelled by the
  outcome of `json.loads` on it (`JsonCell`): the empty cell (falsy in
  Python), a non-empty cell whose parse raises, or a parsed value.
* The relational store is `DBState`; an open transaction is modelled by
  threading a `DBState` through the batch loop, and `conn.commit()` makes
  the threaded state the visible database state.  Store unavailability
  (a query raising) is modelled by an `Except Unit DBState` handle.
* Python string methods `.lower()` / `.strip()` are modelled by `pyLower` /
  `pyStrip` over the character list, and the truthiness of a string is
  its being non-empty.
-/

/-- Model of Python `str.lower()` (ASCII case folding). -/
def pyLower (s : String) : String := ⟨s.data.map Char.toLower⟩

/-- Model of Python `str.strip()`. -/
def pyStrip (s : String) : String :=
  ⟨((s.data.dropWhile Char.isWhitespace).reverse.dropWhile Char.isWhitespace).reverse⟩

/-- A JSON-encoded spreadsheet cell, modelled by the outcome of `json.loads`:
the cell is the empty string (falsy), a non-empty string that fails to parse,
or a string that parses to a value of type `α`. -/
inductive JsonCell (α : Type) where
  | empty : JsonCell α
  | malformed : JsonCell α
  | val : α → JsonCell α
deriving DecidableEq, Repr

/-- Python truthiness of the underlying cell string: only the empty cell is falsy. -/
def JsonCell.truthy : JsonCell α → Bool
  | .empty => false
  | _ => true

/-- The JSON object held by the `surprise_bag_data` cell.  Each field is the
result of a key lookup in the parsed dict: `none` means the key is absent
(`dict.get` returns `None`; subscripting raises `KeyError`). -/
structure SBJson where
  price : Option Int
  estimated_value : Option Int
  daily_quantity : Option Int
  total_quantity : Option Int
deriving DecidableEq, Repr

/-- The `about['en']` object built by `insert_offer_to_db` (only "en" is populated). -/
structure About where
  title : String
  description : String
  summary : String
deriving DecidableEq, Repr

/-- One spreadsheet record as returned by `sheet.get_all_records()`, keyed by the
fixed 15-column header.  Plain cells are strings; the two JSON-encoded cells are
modelled by their parse outcome. -/
structure SheetRecord where
  timestamp : String
  restaurant_id : String
  restaurant_name : String
  offer_type : String
  title : String
  description : String
  summary : String
  valid_days_of_week : JsonCell (List Int)
  valid_start_time : String
  valid_end_time : String
  start_date : String
  end_date : String
  unique_usage_per_user : String
  surprise_bag_data : JsonCell SBJson
  status : String
deriving DecidableEq, Repr

/-- One row of the `offers` table, as inserted by `insert_offer_to_db`. -/
structure OfferRow where
  id : Nat
  restaurant_id : String
  about : About
  offer_type : Nat
  valid_days_of_week : Option (List Int)
  valid_start_time : Option String
  valid_end_time : Option String
  start_date : String
  end_date : Option String
  unique_usage_per_user : String
deriving DecidableEq, Repr

/-- One row of the `surprise_bags` table. -/
structure SBRow where
  offer_id : Nat
  price : Int
  estimated_value : Int
  daily_quantity : Option Int
  current_daily_quantity : Option Int
  total_quantity : Option Int
deriving DecidableEq, Repr

/-- The relational store: the `offer_types` lookup table (id, `en` name), the
`offers` and `surprise_bags` tables, and the next id handed out by
`INSERT ... RETURNING id`. -/
structure DBState where
  offer_types : List (Nat × String)
  offers : List OfferRow
  surprise_bags : List SBRow
  next_offer_id : Nat
deriving DecidableEq, Repr

/-- `get_offer_type_id` (src/admin_offer_approval.py):
`SELECT id FROM offer_types WHERE en = %s` with `fetchone()` —
the id of the first row whose `en` column equals the name, else `None`. -/
def get_offer_type_id (db : DBState) (offer_type_name : String) : Option Nat :=
  (db.offer_types.find? (fun t => t.2 == offer_type_name)).map (fun t => t.1)

/-- Result of one `insert_offer_to_db` call: the returned offer id, the
`return None` taken when `not offer_type_id`, or an exception escaping the call. -/
inductive InsertOutcome where
  | ok : Nat → InsertOutcome
  | noType : InsertOutcome
  | raised : InsertOutcome
deriving DecidableEq, Repr

/-- `insert_offer_to_db` (src/admin_offer_approval.py).  Returns the cursor's
transaction state after the call together with the call's outcome; SQL
statements executed before an exception stay in the (uncommitted) state. -/
def insert_offer_to_db (db : DBState) (offer_data : SheetRecord) : DBState × InsertOutcome :=
  -- `offer_type_id = get_offer_type_id(...); if not offer_type_id: return None`
  match get_offer_type_id db offer_data.offer_type with
  | none => (db, .noType)
  | some offer_type_id =>
    if offer_type_id == 0 then (db, .noType)   -- Python falsiness of 0
    else
      -- `json.loads(offer_data['valid_days_of_week']) if ... else None`
      match offer_data.valid_days_of_week with
      | .malformed => (db, .raised)
      | vd =>
        let valid_days : Option (List Int) :=
          match vd with
          | .val xs => some xs
          | _ => none
        let start_time := if offer_data.valid_start_time == "" then none
                          else some offer_data.valid_start_time
        let end_time := if offer_data.valid_end_time == "" then none
                        else some offer_data.valid_end_time
        let end_date := if offer_data.end_date == "" then none
                        else some offer_data.end_date
        let about_data : About :=
          ⟨offer_data.title, offer_data.description, offer_data.summary⟩
        -- `INSERT INTO offers ... RETURNING id`
        let offer : OfferRow :=
          { id := db.next_offer_id
            restaurant_id := offer_data.restaurant_id
            about := about_data
            offer_type := offer_type_id
            valid_days_of_week := valid_days
            valid_start_time := start_time
            valid_end_time := end_time
            start_date := offer_data.start_date
            end_date := end_date
            unique_usage_per_user := offer_data.unique_usage_per_user }
        let db1 : DBState :=
          { db with offers := db.offers ++ [offer], next_offer_id := db.next_offer_id + 1 }
        -- `if offer_data['surprise_bag_data']:` then parse and insert the bag
        match offer_data.surprise_bag_data with
        | .empty => (db1, .ok offer.id)
        | .malformed => (db1, .raised)        -- json.loads raises
        | .val sb =>
          match sb.price, sb.estimated_value with
          | some price, some ev =>
            let daily_qty := sb.daily_quantity
            let bag : SBRow :=
              { offer_id := offer.id
                price := price
                estimated_value := ev
                daily_quantity := daily_qty
                current_daily_quantity := daily_qty   -- `= daily_quantity initially`
                total_quantity := sb.total_quantity }
            ({ db1 with surprise_bags := db1.surprise_bags ++ [bag] }, .ok offer.id)
          | _, _ => (db1, .raised)              -- `sb[...]` raises KeyError

/-- Accumulated state of the per-row loop of `approve_offers`: the cursor's
transaction state, `approved_count`, `rows_to_delete` (spreadsheet row numbers
of successfully inserted rows, in the order appended), and the trace of
per-row outcomes (the per-row success / failure prints), keyed by row number. -/
structure LoopOut where
  db : DBState
  approved_count : Nat
  rows_to_delete : List Nat
  outcomes : List (Nat × InsertOutcome)
deriving DecidableEq, Repr

/-- The per-row loop of `approve_offers` (src/admin_offer_approval.py):
`for i, record in enumerate(records, start=2): if record['status'] == 'pending':`
then `insert_offer_to_db` under a `try/except` that catches any exception for
that row and continues.  `n` is the row number of the first record. -/
def approveLoop (db : DBState) (n : Nat) : List SheetRecord → LoopOut
  | [] => ⟨db, 0, [], []⟩
  | record :: rest =>
    if record.status == "pending" then
      let (db1, out) := insert_offer_to_db db record
      let tail := approveLoop db1 (n + 1) rest
      match out with
      | .ok _ =>
        ⟨tail.db, tail.approved_count + 1, n :: tail.rows_to_delete, (n, out) :: tail.outcomes⟩
      | _ =>
        -- offer not created, or exception caught by the per-row `except`
        ⟨tail.db, tail.approved_count, tail.rows_to_delete, (n, out) :: tail.outcomes⟩
    else
      approveLoop db (n + 1) rest

/-- The two final prints of `approve_offers`:
`print(f"\n🎉 Successfully approved {approved_count} offers!")` and
`print(f"📝 {approved_count} rows removed from Google Sheets.")`. -/
def finalReportLines (approved_count : Nat) : List String :=
  ["🎉 Successfully approved " ++ toString approved_count ++ " offers!",
   "📝 " ++ toString approved_count ++ " rows removed from Google Sheets."]

/-- The observable result of one `approve_offers` run: the committed database
state, the spreadsheet after the cleanup deletions, the counters and trace of
the loop, and the operator-visible final report lines. -/
structure ApproveResult where
  db : DBState
  sheet : List SheetRecord
  approved_count : Nat
  rows_to_delete : List Nat
  outcomes : List (Nat × InsertOutcome)
  report : List String
deriving DecidableEq, Repr

/-- `approve_offers` (src/admin_offer_approval.py).  `records` is the sheet's
record list (row numbers 2, 3, ...), `db` the database state at connect time,
`confirm` the operator's y/N answer.  After the loop the single `conn.commit()`
makes the threaded transaction state the database state; then the collected
rows are deleted from the sheet in `reversed(rows_to_delete)` order
(`sheet.delete_rows(row_num)` removes the record at position `row_num - 2`). -/
def approve_offers (db : DBState) (records : List SheetRecord) (confirm : Bool) :
    ApproveResult :=
  let pending := records.filter (fun r => r.status == "pending")
  if pending.isEmpty then
    ⟨db, records, 0, [], [], ["✅ No pending offers to approve."]⟩
  else if !confirm then
    ⟨db, records, 0, [], [], ["❌ Approval cancelled."]⟩
  else
    let res := approveLoop db 2 records
    -- `conn.commit()` — the threaded state becomes the database state
    let sheet1 := res.rows_to_delete.reverse.foldl
      (fun s row_num => s.eraseIdx (row_num - 2)) records
    ⟨res.db, sheet1, res.approved_count, res.rows_to_delete, res.outcomes,
      finalReportLines res.approved_count⟩

/-- `check_offer_exists_in_db` (src/utils/queries.py): `SELECT COUNT(*) FROM
offers o JOIN offer_types ot ON o.offer_type = ot.id WHERE o.restaurant_id = %s
AND o.about->'en'->>'title' = %s AND ot.en = %s`, compared `> 0`.  The handle is
`Except`: an unavailable store makes the query raise. -/
def check_offer_exists_in_db (db : Except Unit DBState) (restaurant_id : String)
    (offer_title : String) (offer_type : String) : Except Unit Bool :=
  match db with
  | .error e => .error e
  | .ok d =>
    let joined := d.offers.flatMap
      (fun o => (d.offer_types.filter (fun t => t.1 == o.offer_type)).map (fun t => (o, t)))
    let cnt := joined.countP
      (fun p => p.1.restaurant_id == restaurant_id
        && p.1.about.title == offer_title && p.2.2 == offer_type)
    .ok (decide (cnt > 0))

/-- The condition under which `sync_offers_with_db` marks one record for
deletion: the two `continue` guards pass and the `try`-wrapped existence check
returns a positive match (an exception from the check is swallowed by
`except: pass`, a `False` result appends nothing). -/
def syncPred (db : Except Unit DBState) (restaurant_id : String) (r : SheetRecord) : Bool :=
  r.restaurant_id == restaurant_id
  && pyLower r.status == "pending"
  && (match check_offer_exists_in_db db restaurant_id r.title r.offer_type with
      | .ok true => true
      | _ => false)

/-- The collection loop of `sync_offers_with_db`:
`for i, r in enumerate(records, start=2): ... to_delete.append(i)`. -/
def syncCollect (db : Except Unit DBState) (restaurant_id : String) :
    List SheetRecord → Nat → List Nat
  | [], _ => []
  | r :: rest, n =>
    if syncPred db restaurant_id r then n :: syncCollect db restaurant_id rest (n + 1)
    else syncCollect db restaurant_id rest (n + 1)

/-- `sync_offers_with_db` (src/utils/google_sheets.py): collect the row numbers
of this restaurant's pending rows that already exist in the database, then
`for idx in reversed(to_delete): ws.delete_rows(idx)`.  Returns the resulting
sheet together with `to_delete`. -/
def sync_offers_with_db (db : Except Unit DBState) (restaurant_id : String)
    (sheet : List SheetRecord) : List SheetRecord × List Nat :=
  let to_delete := syncCollect db restaurant_id sheet 2
  (to_delete.reverse.foldl (fun s idx => s.eraseIdx (idx - 2)) sheet, to_delete)

/-- The normalized dict built by `get_pending_offers_from_sheet` for one row. -/
structure PendingOffer where
  timestamp : String
  offer_type : String
  about : About
  valid_days_of_week : Option (List Int)
  valid_start_time : Option String
  valid_end_time : Option String
  start_date : Option String
  end_date : Option String
  unique_usage_per_user : Bool
  status : String
  surprise_bag : Option SBJson
deriving DecidableEq, Repr

/-- The `try` body of `get_pending_offers_from_sheet` for one record: builds the
normalized dict, or `none` when a `json.loads` raises (the `except` skips the
row).  The empty `valid_days_of_week` cell parses as `"[]"`, and the trailing
`or None` maps an empty list to `None`. -/
def normalize_pending_row (r : SheetRecord) : Option PendingOffer :=
  match r.valid_days_of_week with
  | .malformed => none
  | vd =>
    let parsed : List Int :=
      match vd with
      | .val xs => xs
      | _ => []
    let valid_days : Option (List Int) := if parsed.isEmpty then none else some parsed
    match r.surprise_bag_data with
    | .malformed => none   -- `sb` non-empty and `json.loads(sb)` raises
    | sbc =>
      some
        { timestamp := r.timestamp
          offer_type := r.offer_type
          about := ⟨r.title, r.description, r.summary⟩
          valid_days_of_week := valid_days
          valid_start_time := if r.valid_start_time == "" then none else some r.valid_start_time
          valid_end_time := if r.valid_end_time == "" then none else some r.valid_end_time
          start_date := if r.start_date == "" then none else some r.start_date
          end_date := if r.end_date == "" then none else some r.end_date
          unique_usage_per_user :=
            (["true", "1", "yes"] : List String).contains (pyLower (pyStrip r.unique_usage_per_user))
          status := "pending"
          surprise_bag :=
            match sbc with
            | .val sb => some sb
            | _ => none }

/-- `get_pending_offers_from_sheet` (src/utils/google_sheets.py): filter the
records to this restaurant's pending rows, normalize each, and silently skip
any row whose normalization raises. -/
def get_pending_offers_from_sheet (restaurant_id : String) :
    List SheetRecord → List PendingOffer
  | [] => []
  | r :: rest =>
    if r.restaurant_id == restaurant_id && pyLower r.status == "pending" then
      match normalize_pending_row r with
      | some p => p :: get_pending_offers_from_sheet restaurant_id rest
      | none => get_pending_offers_from_sheet restaurant_id rest
    else
      get_pending_offers_from_sheet restaurant_id rest

/-- Specification-side description of index-based deletion: keep, in order, the
records whose 0-based position is not in `is` (counting from `k`). -/
def removePositionsAux : List α → List Nat → Nat → List α
  | [], _, _ => []
  | x :: t, is, k =>
    if k ∈ is then removePositionsAux t is (k + 1)
    else x :: removePositionsAux t is (k + 1)

/-- Keep exactly the records whose 0-based position is not in `is`. -/
def removePositions (xs : List α) (is : List Nat) : List α :=
  removePositionsAux xs is 0

/-- Number of pending rows reported as failures by the loop's per-row prints:
the outcomes that are not `ok`. -/
def countFailed (outs : List (Nat × InsertOutcome)) : Nat :=
  (outs.filter (fun o => match o.2 with | .ok _ => false | _ => true)).length

/-! ## Deletion-order machinery

`removePositions` lemmas and the correspondence between the source's
"collect ascending, delete in reversed order via `eraseIdx`" pattern and
"keep exactly the non-collected positions". -/

theorem removePositionsAux_nil (xs : List α) (k : Nat) :
    removePositionsAux xs ([] : List Nat) k = xs := by
  induction xs generalizing k with
  | nil => rfl
  | cons x t ih => simp [removePositionsAux, ih]

theorem removePositions_nil (xs : List α) : removePositions xs [] = xs :=
  removePositionsAux_nil xs 0

/-- A position strictly below every counter the recursion will visit is never hit. -/
theorem removePositionsAux_cons_lt (t : List α) (is : List Nat) (i : Nat) :
    ∀ m, i < m → removePositionsAux t (i :: is) m = removePositionsAux t is m := by
  induction t with
  | nil => intro m _; rfl
  | cons x t ih =>
    intro m h
    have hne : m ≠ i := Nat.ne_of_gt h
    have hmem : (m ∈ i :: is) ↔ (m ∈ is) := by
      simp [List.mem_cons, hne]
    by_cases hm : m ∈ is
    · simp only [removePositionsAux]
      rw [if_pos (hmem.mpr hm), if_pos hm, ih (m + 1) (Nat.lt_succ_of_lt h)]
    · simp only [removePositionsAux]
      rw [if_neg (fun hc => hm (hmem.mp hc)), if_neg hm, ih (m + 1) (Nat.lt_succ_of_lt h)]

/-- Erasing position `i - k` from the kept records (all removed positions being
above `i`) equals also removing position `i`. -/
theorem removePositionsAux_eraseIdx (xs : List α) (is : List Nat) (i k : Nat)
    (hk : k ≤ i) (hgt : ∀ j ∈ is, i < j) :
    (removePositionsAux xs is k).eraseIdx (i - k) = removePositionsAux xs (i :: is) k := by
  induction xs generalizing k with
  | nil => rfl
  | cons x t ih =>
    have hknotin : k ∉ is := fun hc => absurd (hgt k hc) (Nat.not_lt_of_le hk)
    by_cases hki : k = i
    · subst hki
      have hmem : k ∈ k :: is := List.mem_cons_self k is
      simp only [removePositionsAux]
      rw [if_neg hknotin, if_pos hmem, Nat.sub_self, List.eraseIdx_cons_zero]
      exact (removePositionsAux_cons_lt t is k (k + 1) (Nat.lt_succ_self k)).symm
    · have hklt : k < i := Nat.lt_of_le_of_ne hk hki
      have hknotin' : k ∉ i :: is := by
        simp [List.mem_cons, hki, hknotin]
      have hsub : i - k = (i - (k + 1)) + 1 := by omega
      simp only [removePositionsAux]
      rw [if_neg hknotin, if_neg hknotin', hsub, List.eraseIdx_cons_succ,
        ih (k + 1) (Nat.succ_le_of_lt hklt)]

/-- Deleting a strictly ascending list of positions in reversed (descending)
order removes exactly those positions. -/
theorem foldl_eraseIdx_reverse (xs : List α) (is : List Nat)
    (h : List.Pairwise (· < ·) is) :
    is.reverse.foldl (fun s i => s.eraseIdx i) xs = removePositions xs is := by
  induction is with
  | nil => simp [removePositions, removePositionsAux_nil]
  | cons i rest ih =>
    rw [List.pairwise_cons] at h
    rw [List.reverse_cons, List.foldl_append, ih h.2]
    simpa [removePositions] using
      removePositionsAux_eraseIdx xs rest i 0 (Nat.zero_le i) h.1

/-- Shifting all positions down by a common offset `c` (no position being below
`c`) matches starting the counter at `c`. -/
theorem removePositionsAux_map_sub (xs : List α) (is : List Nat) (c : Nat)
    (hc : ∀ i ∈ is, c ≤ i) :
    ∀ k, removePositionsAux xs (is.map (fun i => i - c)) k = removePositionsAux xs is (k + c) := by
  induction xs with
  | nil => intro k; rfl
  | cons x t ih =>
    intro k
    have hmem : (k ∈ is.map (fun i => i - c)) ↔ (k + c ∈ is) := by
      constructor
      · intro hk
        obtain ⟨i, hi, hie⟩ := List.mem_map.mp hk
        have := hc i hi
        have : i = k + c := by omega
        rwa [this] at hi
      · intro hk
        exact List.mem_map.mpr ⟨k + c, hk, by omega⟩
    by_cases hk : k + c ∈ is
    · simp only [removePositionsAux]
      rw [if_pos (hmem.mpr hk), if_pos hk, ih (k + 1), Nat.add_right_comm]
    · simp only [removePositionsAux]
      rw [if_neg (fun hcon => hk (hmem.mp hcon)), if_neg hk, ih (k + 1), Nat.add_right_comm]

/-- The source's deletion phase (`for idx in reversed(to_delete):
sheet.delete_rows(idx)`, each deleting the record at `idx - 2`) applied to an
ascending list of row numbers ≥ 2 keeps exactly the non-collected records. -/
theorem foldl_delete_rows (xs : List α) (ds : List Nat)
    (hasc : List.Pairwise (· < ·) ds) (h2 : ∀ n ∈ ds, 2 ≤ n) :
    ds.reverse.foldl (fun s row_num => s.eraseIdx (row_num - 2)) xs
      = removePositionsAux xs ds 2 := by
  have hmap : List.Pairwise (· < ·) (ds.map (fun n => n - 2)) := by
    rw [List.pairwise_map]
    exact List.Pairwise.imp_of_mem
      (fun {a b} ha hb hab => Nat.sub_lt_sub_right (h2 a ha) hab) hasc
  have hrev : ds.reverse.foldl (fun s row_num => s.eraseIdx (row_num - 2)) xs
      = (ds.map (fun n => n - 2)).reverse.foldl (fun s i => s.eraseIdx i) xs := by
    rw [← List.map_reverse, List.foldl_map]
  rw [hrev, foldl_eraseIdx_reverse xs _ hmap]
  have := removePositionsAux_map_sub xs ds 2 h2 0
  simpa [removePositions] using this

/-! ## Reconciler lemmas -/

theorem syncCollect_lower_bound (db : Except Unit DBState) (rid : String) :
    ∀ (rs : List SheetRecord) (k : Nat), ∀ n ∈ syncCollect db rid rs k, k ≤ n := by
  intro rs
  induction rs with
  | nil => intro k n hn; simp [syncCollect] at hn
  | cons r rest ih =>
    intro k n hn
    by_cases hp : syncPred db rid r
    · rw [syncCollect, if_pos hp] at hn
      rcases List.mem_cons.mp hn with h | h
      · omega
      · have := ih (k + 1) n h; omega
    · rw [syncCollect, if_neg hp] at hn
      have := ih (k + 1) n hn
      omega

theorem syncCollect_pairwise (db : Except Unit DBState) (rid : String) :
    ∀ (rs : List SheetRecord) (k : Nat), List.Pairwise (· < ·) (syncCollect db rid rs k) := by
  intro rs
  induction rs with
  | nil => intro k; simp [syncCollect]
  | cons r rest ih =>
    intro k
    by_cases hp : syncPred db rid r
    · rw [syncCollect, if_pos hp]
      refine List.pairwise_cons.mpr ⟨?_, ih (k + 1)⟩
      intro m hm
      have := syncCollect_lower_bound db rid rest (k + 1) m hm
      omega
    · rw [syncCollect, if_neg hp]
      exact ih (k + 1)

theorem syncCollect_ge_two (db : Except Unit DBState) (rid : String)
    (rs : List SheetRecord) : ∀ n ∈ syncCollect db rid rs 2, 2 ≤ n :=
  syncCollect_lower_bound db rid rs 2

/-- Removing exactly the positions collected by `syncCollect` (counting from the
same base `k`) filters out exactly the records satisfying `syncPred`. -/
theorem removePositionsAux_syncCollect (db : Except Unit DBState) (rid : String) :
    ∀ (rs : List SheetRecord) (k : Nat),
      removePositionsAux rs (syncCollect db rid rs k) k
        = rs.filter (fun r => !syncPred db rid r) := by
  intro rs
  induction rs with
  | nil => intro k; rfl
  | cons r rest ih =>
    intro k
    by_cases hp : syncPred db rid r
    · rw [syncCollect, if_pos hp]
      rw [removePositionsAux, if_pos (List.mem_cons_self k _)]
      rw [removePositionsAux_cons_lt rest _ k (k + 1) (Nat.lt_succ_self k)]
      rw [List.filter_cons_of_neg (by simp [hp]), ih (k + 1)]
    · rw [syncCollect, if_neg hp]
      have hnotin : k ∉ syncCollect db rid rest (k + 1) := by
        intro hc
        have := syncCollect_lower_bound db rid rest (k + 1) k hc
        omega
      rw [removePositionsAux, if_neg hnotin]
      rw [List.filter_cons_of_pos (by simp [hp]), ih (k + 1)]

/-- The sheet returned by one `sync_offers_with_db` run is exactly the input
records with the rows satisfying `syncPred` removed. -/
theorem sync_offers_with_db_filter (db : Except Unit DBState) (rid : String)
    (sheet : List SheetRecord) :
    (sync_offers_with_db db rid sheet).1 = sheet.filter (fun r => !syncPred db rid r) := by
  show (syncCollect db rid sheet 2).reverse.foldl
      (fun s idx => s.eraseIdx (idx - 2)) sheet
    = sheet.filter (fun r => !syncPred db rid r)
  rw [foldl_delete_rows sheet _ (syncCollect_pairwise db rid sheet 2)
    (syncCollect_ge_two db rid sheet)]
  exact removePositionsAux_syncCollect db rid sheet 2

/-- If no record satisfies `syncPred`, nothing is collected. -/
theorem syncCollect_eq_nil (db : Except Unit DBState) (rid : String) :
    ∀ (rs : List SheetRecord) (k : Nat), (∀ r ∈ rs, ¬ syncPred db rid r) →
      syncCollect db rid rs k = [] := by
  intro rs
  induction rs with
  | nil => intro k _; rfl
  | cons r rest ih =>
    intro k h
    rw [syncCollect, if_neg (h r (List.mem_cons_self r rest))]
    exact ih (k + 1) (fun x hx => h x (List.mem_cons_of_mem r hx))

/-! ## Batch-runner lemmas -/

/-- `insert_offer_to_db` only ever appends to the `offers` table: an offer
already in the transaction state stays there whatever the call's outcome. -/
theorem insert_offer_to_db_mem_offers (db : DBState) (r : SheetRecord)
    (o : OfferRow) (h : o ∈ db.offers) : o ∈ (insert_offer_to_db db r).1.offers := by
  unfold insert_offer_to_db
  repeat' split
  all_goals simp_all

/-- `insert_offer_to_db` never touches the `offer_types` lookup table. -/
theorem insert_offer_to_db_offer_types (db : DBState) (r : SheetRecord) :
    (insert_offer_to_db db r).1.offer_types = db.offer_types := by
  unfold insert_offer_to_db
  repeat' split
  all_goals simp_all

/-- A successful `insert_offer_to_db` call leaves an offer with the returned id
in the transaction state. -/
theorem insert_offer_to_db_ok_mem (db : DBState) (r : SheetRecord) (id : Nat)
    (h : (insert_offer_to_db db r).2 = .ok id) :
    ∃ o ∈ (insert_offer_to_db db r).1.offers, o.id = id := by
  unfold insert_offer_to_db at *
  repeat' split at h
  all_goals simp_all
  all_goals exact ⟨_, Or.inr rfl, rfl⟩

/-- An offer present in the transaction state stays present through the rest of
the batch loop: per-row failures never undo earlier inserts. -/
theorem approveLoop_mem_offers (o : OfferRow) :
    ∀ (rs : List SheetRecord) (db : DBState) (n : Nat), o ∈ db.offers →
      o ∈ (approveLoop db n rs).db.offers := by
  intro rs
  induction rs with
  | nil => intro db n h; exact h
  | cons r rest ih =>
    intro db n h
    by_cases hp : (r.status == "pending") = true
    · rcases hins : insert_offer_to_db db r with ⟨db1, out⟩
      have h1 : o ∈ db1.offers := by
        have := insert_offer_to_db_mem_offers db r o h
        rwa [hins] at this
      cases out with
      | ok id => simp only [approveLoop, if_pos hp, hins]; exact ih db1 (n + 1) h1
      | noType => simp only [approveLoop, if_pos hp, hins]; exact ih db1 (n + 1) h1
      | raised => simp only [approveLoop, if_pos hp, hins]; exact ih db1 (n + 1) h1
    · simp only [approveLoop, if_neg hp]
      exact ih db (n + 1) h

/-- The batch loop never touches the `offer_types` lookup table. -/
theorem approveLoop_offer_types :
    ∀ (rs : List SheetRecord) (db : DBState) (n : Nat),
      (approveLoop db n rs).db.offer_types = db.offer_types := by
  intro rs
  induction rs with
  | nil => intro db n; rfl
  | cons r rest ih =>
    intro db n
    by_cases hp : (r.status == "pending") = true
    · rcases hins : insert_offer_to_db db r with ⟨db1, out⟩
      have h1 : db1.offer_types = db.offer_types := by
        have := insert_offer_to_db_offer_types db r
        rwa [hins] at this
      cases out with
      | ok id => simp only [approveLoop, if_pos hp, hins]; rw [ih db1 (n + 1), h1]
      | noType => simp only [approveLoop, if_pos hp, hins]; rw [ih db1 (n + 1), h1]
      | raised => simp only [approveLoop, if_pos hp, hins]; rw [ih db1 (n + 1), h1]
    · simp only [approveLoop, if_neg hp]
      exact ih db (n + 1)

/-- Any row whose `insert_offer_to_db` succeeded has an offer with the returned
id in the loop's final transaction state — whatever happened to sibling rows. -/
theorem approveLoop_ok_mem :
    ∀ (rs : List SheetRecord) (db : DBState) (n m id : Nat),
      (m, InsertOutcome.ok id) ∈ (approveLoop db n rs).outcomes →
      ∃ o ∈ (approveLoop db n rs).db.offers, o.id = id := by
  intro rs
  induction rs with
  | nil => intro db n m id h; simp [approveLoop] at h
  | cons r rest ih =>
    intro db n m id h
    by_cases hp : (r.status == "pending") = true
    · rcases hins : insert_offer_to_db db r with ⟨db1, out⟩
      cases out with
      | ok id0 =>
        simp only [approveLoop, if_pos hp, hins] at h ⊢
        rcases List.mem_cons.mp h with hh | hh
        · have hid : id0 = id := by
            have h2 := ((Prod.mk.injEq _ _ _ _).mp hh).2
            exact ((InsertOutcome.ok.injEq _ _).mp h2).symm
          have hok : (insert_offer_to_db db r).2 = .ok id := by rw [hins, hid]
          obtain ⟨o, ho, hoid⟩ := insert_offer_to_db_ok_mem db r id hok
          rw [hins] at ho
          exact ⟨o, approveLoop_mem_offers o rest db1 (n + 1) ho, hoid⟩
        · exact ih db1 (n + 1) m id hh
      | noType =>
        simp only [approveLoop, if_pos hp, hins] at h ⊢
        rcases List.mem_cons.mp h with hh | hh
        · exact absurd ((Prod.mk.injEq _ _ _ _).mp hh).2 (by simp)
        · exact ih db1 (n + 1) m id hh
      | raised =>
        simp only [approveLoop, if_pos hp, hins] at h ⊢
        rcases List.mem_cons.mp h with hh | hh
        · exact absurd ((Prod.mk.injEq _ _ _ _).mp hh).2 (by simp)
        · exact ih db1 (n + 1) m id hh
    · simp only [approveLoop, if_neg hp] at h ⊢
      exact ih db (n + 1) m id h

theorem approveLoop_rows_lower_bound :
    ∀ (rs : List SheetRecord) (db : DBState) (k : Nat),
      ∀ n ∈ (approveLoop db k rs).rows_to_delete, k ≤ n := by
  intro rs
  induction rs with
  | nil => intro db k n hn; simp [approveLoop] at hn
  | cons r rest ih =>
    intro db k n hn
    by_cases hp : (r.status == "pending") = true
    · rcases hins : insert_offer_to_db db r with ⟨db1, out⟩
      cases out with
      | ok id =>
        simp only [approveLoop, if_pos hp, hins] at hn
        rcases List.mem_cons.mp hn with hh | hh
        · omega
        · have := ih db1 (k + 1) n hh; omega
      | noType =>
        simp only [approveLoop, if_pos hp, hins] at hn
        have := ih db1 (k + 1) n hn; omega
      | raised =>
        simp only [approveLoop, if_pos hp, hins] at hn
        have := ih db1 (k + 1) n hn; omega
    · simp only [approveLoop, if_neg hp] at hn
      have := ih db (k + 1) n hn; omega

theorem approveLoop_rows_pairwise :
    ∀ (rs : List SheetRecord) (db : DBState) (k : Nat),
      List.Pairwise (· < ·) (approveLoop db k rs).rows_to_delete := by
  intro rs
  induction rs with
  | nil => intro db k; simp [approveLoop]
  | cons r rest ih =>
    intro db k
    by_cases hp : (r.status == "pending") = true
    · rcases hins : insert_offer_to_db db r with ⟨db1, out⟩
      cases out with
      | ok id =>
        simp only [approveLoop, if_pos hp, hins]
        refine List.pairwise_cons.mpr ⟨?_, ih db1 (k + 1)⟩
        intro m hm
        have := approveLoop_rows_lower_bound rest db1 (k + 1) m hm
        omega
      | noType => simp only [approveLoop, if_pos hp, hins]; exact ih db1 (k + 1)
      | raised => simp only [approveLoop, if_pos hp, hins]; exact ih db1 (k + 1)
    · simp only [approveLoop, if_neg hp]
      exact ih db (k + 1)

/-- The transaction state and the success counter computed by the loop do not
depend on the row-number offset (only `rows_to_delete` and the trace do). -/
theorem approveLoop_db_count_offset :
    ∀ (rs : List SheetRecord) (db : DBState) (k m : Nat),
      (approveLoop db k rs).db = (approveLoop db m rs).db
      ∧ (approveLoop db k rs).approved_count = (approveLoop db m rs).approved_count := by
  intro rs
  induction rs with
  | nil => intro db k m; exact ⟨rfl, rfl⟩
  | cons r rest ih =>
    intro db k m
    by_cases hp : (r.status == "pending") = true
    · rcases hins : insert_offer_to_db db r with ⟨db1, out⟩
      cases out with
      | ok id =>
        simp only [approveLoop, if_pos hp, hins]
        exact ⟨(ih db1 (k + 1) (m + 1)).1, by rw [(ih db1 (k + 1) (m + 1)).2]⟩
      | noType =>
        simp only [approveLoop, if_pos hp, hins]
        exact ih db1 (k + 1) (m + 1)
      | raised =>
        simp only [approveLoop, if_pos hp, hins]
        exact ih db1 (k + 1) (m + 1)
    · simp only [approveLoop, if_neg hp]
      exact ih db (k + 1) (m + 1)

/-- When the offer-type lookup finds no exact match, `insert_offer_to_db`
returns `None` without executing a single insert. -/
theorem insert_offer_to_db_noType (db : DBState) (r : SheetRecord)
    (h : get_offer_type_id db r.offer_type = none) :
    insert_offer_to_db db r = (db, .noType) := by
  unfold insert_offer_to_db
  rw [h]

/-- A pending row whose offer type has no exact match contributes nothing to
the transaction state or the success counter: the loop just moves on to the
remaining rows. -/
theorem approveLoop_skip_noType (bad : SheetRecord)
    (hp : (bad.status == "pending") = true) :
    ∀ (pre post : List SheetRecord) (db : DBState) (k : Nat) (ot : List (Nat × String)),
      db.offer_types = ot →
      (∀ t ∈ ot, ¬ ((t.2 == bad.offer_type) = true)) →
      (approveLoop db k (pre ++ bad :: post)).db = (approveLoop db k (pre ++ post)).db
      ∧ (approveLoop db k (pre ++ bad :: post)).approved_count
        = (approveLoop db k (pre ++ post)).approved_count := by
  intro pre
  induction pre with
  | nil =>
    intro post db k ot hot hno
    have hlook : get_offer_type_id db bad.offer_type = none := by
      unfold get_offer_type_id
      rw [List.find?_eq_none.mpr (by rw [hot]; exact hno)]
      rfl
    have hins := insert_offer_to_db_noType db bad hlook
    simp only [List.nil_append]
    simp only [approveLoop, if_pos hp, hins]
    exact approveLoop_db_count_offset post db (k + 1) k
  | cons p pre ih =>
    intro post db k ot hot hno
    simp only [List.cons_append]
    by_cases hpp : (p.status == "pending") = true
    · rcases hins : insert_offer_to_db db p with ⟨db1, out⟩
      have hot1 : db1.offer_types = ot := by
        have := insert_offer_to_db_offer_types db p
        rw [hins] at this
        rw [this, hot]
      cases out with
      | ok id =>
        simp only [approveLoop, if_pos hpp, hins]
        exact ⟨(ih post db1 (k + 1) ot hot1 hno).1,
          by rw [(ih post db1 (k + 1) ot hot1 hno).2]⟩
      | noType =>
        simp only [approveLoop, if_pos hpp, hins]
        exact ih post db1 (k + 1) ot hot1 hno
      | raised =>
        simp only [approveLoop, if_pos hpp, hins]
        exact ih post db1 (k + 1) ot hot1 hno
    · simp only [approveLoop, if_neg hpp]
      exact ih post db (k + 1) ot hot hno

/-- A batch with no pending rows leaves the loop state untouched. -/
theorem approveLoop_no_pending :
    ∀ (rs : List SheetRecord) (db : DBState) (k : Nat),
      (∀ r ∈ rs, ¬ ((r.status == "pending") = true)) →
      approveLoop db k rs = ⟨db, 0, [], []⟩ := by
  intro rs
  induction rs with
  | nil => intro db k _; rfl
  | cons r rest ih =>
    intro db k h
    simp only [approveLoop, if_neg (h r (List.mem_cons_self r rest))]
    exact ih db (k + 1) (fun x hx => h x (List.mem_cons_of_mem r hx))

/-- The sheet left behind by `approve_offers` keeps exactly the records whose
row number was not collected in `rows_to_delete`. -/
theorem approve_offers_sheet_char (db : DBState) (records : List SheetRecord)
    (confirm : Bool) :
    (approve_offers db records confirm).sheet
      = removePositionsAux records (approve_offers db records confirm).rows_to_delete 2 := by
  simp only [approve_offers]
  by_cases h1 : (List.filter (fun r => r.status == "pending") records).isEmpty = true
  · rw [if_pos h1]
    exact (removePositionsAux_nil records 2).symm
  · rw [if_neg h1]
    by_cases h2 : (!confirm) = true
    · rw [if_pos h2]
      exact (removePositionsAux_nil records 2).symm
    · rw [if_neg h2]
      exact foldl_delete_rows records _ (approveLoop_rows_pairwise records db 2)
        (approveLoop_rows_lower_bound records db 2)

theorem approve_offers_rows_pairwise (db : DBState) (records : List SheetRecord)
    (confirm : Bool) :
    List.Pairwise (· < ·) (approve_offers db records confirm).rows_to_delete := by
  simp only [approve_offers]
  by_cases h1 : (List.filter (fun r => r.status == "pending") records).isEmpty = true
  · rw [if_pos h1]; simp
  · rw [if_neg h1]
    by_cases h2 : (!confirm) = true
    · rw [if_pos h2]; simp
    · rw [if_neg h2]
      exact approveLoop_rows_pairwise records db 2

/-- A successful normalization always carries the literal status `"pending"`. -/
theorem normalize_pending_row_status (r : SheetRecord) (p : PendingOffer)
    (h : normalize_pending_row r = some p) : p.status = "pending" := by
  unfold normalize_pending_row at h
  repeat' split at h
  all_goals try (injection h with h'; rw [← h'])
  all_goals simp at h

/-! ## Concrete fixtures for witnesses and counterexamples -/

/-- A database with the two offer types used by the fixtures and no offers yet. -/
def dbFix : DBState :=
  { offer_types := [(1, "Percent Discount"), (2, "Surprise Bag")]
    offers := []
    surprise_bags := []
    next_offer_id := 1 }

/-- A well-formed pending row. -/
def recGood : SheetRecord :=
  { timestamp := "2025-09-24T12:00:00"
    restaurant_id := "1"
    restaurant_name := "Test Restaurant"
    offer_type := "Percent Discount"
    title := "10% Off"
    description := "Get 10% off"
    summary := "10% off"
    valid_days_of_week := .val [1, 3]
    valid_start_time := ""
    valid_end_time := ""
    start_date := "2025-09-24"
    end_date := ""
    unique_usage_per_user := "FALSE"
    surprise_bag_data := .empty
    status := "pending" }

/-- A pending row whose offer type has no match in `offer_types`. -/
def recBadType : SheetRecord :=
  { recGood with offer_type := "NotARealType", title := "Bad Offer" }

/-- A pending Surprise Bag row whose `surprise_bag_data` cell fails to parse. -/
def recBadBag : SheetRecord :=
  { recGood with offer_type := "Surprise Bag", title := "Orphan Bag"
                 surprise_bag_data := .malformed }

/-- A pending Surprise Bag row with
`surprise_bag_data = {"price": 5, "estimated_value": 12, "daily_quantity": 20}`. -/
def recSB : SheetRecord :=
  { recGood with offer_type := "Surprise Bag", title := "Bag"
                 surprise_bag_data := .val ⟨some 5, some 12, some 20, none⟩ }

/-- A pending row whose `valid_days_of_week` cell fails to parse. -/
def recMalformed : SheetRecord :=
  { recGood with title := "Broken Row", valid_days_of_week := .malformed }

/-! ## Claims -/

/-- C1: During one `approve_offers` run, row-level errors are caught inside the
per-row loop and the transaction is committed once after the loop, so for every
batch of pending rows, a failure while processing one row does not undo the
database inserts of rows that were already processed successfully in the same
run: the successfully inserted offers are still present after the single
commit.  (Formally: any row whose trace entry is a success has an offer with
the returned id in the committed database state, for every batch, including
batches in which other rows raised.) -/
theorem c1_successful_rows_persist (db : DBState) (records : List SheetRecord)
    (n id : Nat)
    (h : (n, InsertOutcome.ok id) ∈ (approve_offers db records true).outcomes) :
    ∃ o ∈ (approve_offers db records true).db.offers, o.id = id := by
  simp only [approve_offers] at h ⊢
  by_cases h1 : (List.filter (fun r => r.status == "pending") records).isEmpty = true
  · rw [if_pos h1] at h
    simp at h
  · rw [if_neg h1] at h ⊢
    rw [if_neg (by simp)] at h ⊢
    exact approveLoop_ok_mem records db 2 n id h

/-- Witness for C1: in a batch whose first row succeeds and whose second row
raises inside the surprise-bag phase, the first row's offer is in the committed
database. -/
theorem c1_witness :
    ((2, InsertOutcome.ok 1) ∈ (approve_offers dbFix [recGood, recBadBag] true).outcomes)
    ∧ ∃ o ∈ (approve_offers dbFix [recGood, recBadBag] true).db.offers, o.id = 1 :=
  ⟨by decide, c1_successful_rows_persist dbFix [recGood, recBadBag] 2 1 (by decide)⟩

/-- When the surprise-bag phase fails after the offer insert (unparseable
`surprise_bag_data`, or a parsed dict missing `price` / `estimated_value`), the
exception leaves the already-executed offer insert in the transaction state
while no surprise-bag row was inserted. -/
theorem insert_offer_to_db_sb_failure (db : DBState) (r : SheetRecord) (k : Nat)
    (hty : get_offer_type_id db r.offer_type = some k) (hk0 : k ≠ 0)
    (hdays : r.valid_days_of_week ≠ .malformed)
    (hsb : r.surprise_bag_data = .malformed
      ∨ ∃ sb, r.surprise_bag_data = .val sb
          ∧ (sb.price = none ∨ sb.estimated_value = none)) :
    (insert_offer_to_db db r).1.offers.length = db.offers.length + 1
    ∧ (insert_offer_to_db db r).1.surprise_bags = db.surprise_bags
    ∧ (insert_offer_to_db db r).2 = .raised := by
  unfold insert_offer_to_db
  have hkb : (k == 0) = false := by simpa using hk0
  cases hvd : r.valid_days_of_week with
  | malformed => exact absurd hvd hdays
  | empty =>
    rcases hsb with hm | ⟨sb, hv, hpe⟩
    · simp [hty, hkb, hvd, hm]
    · rcases hpe with hp | he
      · simp [hty, hkb, hvd, hv, hp]
      · rcases hq : sb.price with _ | q
        · simp [hty, hkb, hvd, hv, hq]
        · simp [hty, hkb, hvd, hv, hq, he]
  | val xs =>
    rcases hsb with hm | ⟨sb, hv, hpe⟩
    · simp [hty, hkb, hvd, hm]
    · rcases hpe with hp | he
      · simp [hty, hkb, hvd, hv, hp]
      · rcases hq : sb.price with _ | q
        · simp [hty, hkb, hvd, hv, hq]
        · simp [hty, hkb, hvd, hv, hq, he]

/-- C2 counterexample: a pending Surprise Bag row whose `surprise_bag_data`
fails to parse.  The offer insert succeeds, the surprise-bag phase raises, the
per-row `except` suppresses the exception, and the single batch commit then
persists the orphaned Offer: after the run the Offer row exists and the
SurpriseBag row does not, refuting "either both the Offer and its SurpriseBag
exist, or neither does, within one run's commit scope". -/
theorem c2_counterexample :
    (approve_offers dbFix [recBadBag] true).outcomes = [(2, InsertOutcome.raised)]
    ∧ ¬ (((approve_offers dbFix [recBadBag] true).db.offers ≠ []
          ∧ (approve_offers dbFix [recBadBag] true).db.surprise_bags ≠ [])
        ∨ ((approve_offers dbFix [recBadBag] true).db.offers = []
          ∧ (approve_offers dbFix [recBadBag] true).db.surprise_bags = [])) := by
  decide

/-- C2 amended: for every pending row whose surprise-bag insert fails after its
offer insert succeeded within one `approve_offers` run, the Offer row DOES
persist past that run's commit while the SurpriseBag row does not — the error
is caught per row and the batch-wide commit keeps the orphaned Offer. -/
theorem c2_orphaned_offer_persists (db : DBState) (r : SheetRecord) (k : Nat)
    (hp : (r.status == "pending") = true)
    (hty : get_offer_type_id db r.offer_type = some k) (hk0 : k ≠ 0)
    (hdays : r.valid_days_of_week ≠ .malformed)
    (hsb : r.surprise_bag_data = .malformed
      ∨ ∃ sb, r.surprise_bag_data = .val sb
          ∧ (sb.price = none ∨ sb.estimated_value = none)) :
    (approve_offers db [r] true).db.offers.length = db.offers.length + 1
    ∧ (approve_offers db [r] true).db.surprise_bags = db.surprise_bags := by
  obtain ⟨hlen, hsbags, hout⟩ := insert_offer_to_db_sb_failure db r k hty hk0 hdays hsb
  simp only [approve_offers]
  rw [if_neg (by simp [List.filter, hp])]
  rw [if_neg (by simp)]
  rcases hins : insert_offer_to_db db r with ⟨db1, out⟩
  rw [hins] at hlen hsbags hout
  simp only at hlen hsbags hout
  subst hout
  simp only [approveLoop, if_pos hp, hins]
  exact ⟨hlen, hsbags⟩

/-- Witness for the amended C2 at the concrete counterexample row. -/
theorem c2_witness :
    (approve_offers dbFix [recBadBag] true).db.offers.length = dbFix.offers.length + 1
    ∧ (approve_offers dbFix [recBadBag] true).db.surprise_bags = dbFix.surprise_bags :=
  c2_orphaned_offer_persists dbFix recBadBag 2 (by decide) (by decide) (by decide)
    (by decide) (Or.inl (by decide))

/-- C3: for every set of spreadsheet row indices collected for deletion (by the
Reconciler `sync_offers_with_db` or by the Batch Runner `approve_offers`), the
delete-row-by-index calls are issued in strictly descending index order
(`reversed(to_delete)` is pairwise `>`), and after all deletions exactly the
collected rows are gone while the remaining rows are preserved, shifted but
intact (`removePositionsAux` keeps, in order, precisely the records whose row
number was not collected). -/
theorem c3_deletion_order_and_effect :
    (∀ (db : Except Unit DBState) (rid : String) (sheet : List SheetRecord),
      List.Pairwise (· > ·) (sync_offers_with_db db rid sheet).2.reverse
      ∧ (sync_offers_with_db db rid sheet).1
          = removePositionsAux sheet (sync_offers_with_db db rid sheet).2 2)
    ∧ (∀ (db : DBState) (records : List SheetRecord) (confirm : Bool),
      List.Pairwise (· > ·) (approve_offers db records confirm).rows_to_delete.reverse
      ∧ (approve_offers db records confirm).sheet
          = removePositionsAux records (approve_offers db records confirm).rows_to_delete 2) := by
  constructor
  · intro db rid sheet
    constructor
    · rw [List.pairwise_reverse]
      exact syncCollect_pairwise db rid sheet 2
    · show (syncCollect db rid sheet 2).reverse.foldl
          (fun s idx => s.eraseIdx (idx - 2)) sheet
        = removePositionsAux sheet (syncCollect db rid sheet 2) 2
      exact foldl_delete_rows sheet _ (syncCollect_pairwise db rid sheet 2)
        (syncCollect_ge_two db rid sheet)
  · intro db records confirm
    constructor
    · rw [List.pairwise_reverse]
      exact approve_offers_rows_pairwise db records confirm
    · exact approve_offers_sheet_char db records confirm

/-- C4: the Reconciler never deletes a spreadsheet row for which the database
existence check did not succeed with a positive match (any row whose check is
not `.ok true` is still in the sheet afterwards), and when the relational store
is unavailable it performs no deletion at all and leaves the spreadsheet state
unchanged instead of raising to the caller. -/
theorem c4_never_deletes_unmatched_and_tolerates_outage :
    (∀ (db : Except Unit DBState) (rid : String) (sheet : List SheetRecord)
      (r : SheetRecord), r ∈ sheet →
      check_offer_exists_in_db db rid r.title r.offer_type ≠ .ok true →
      r ∈ (sync_offers_with_db db rid sheet).1)
    ∧ (∀ (rid : String) (sheet : List SheetRecord) (e : Unit),
      sync_offers_with_db (.error e) rid sheet = (sheet, [])) := by
  constructor
  · intro db rid sheet r hr hchk
    rw [sync_offers_with_db_filter db rid sheet]
    refine List.mem_filter.mpr ⟨hr, ?_⟩
    have hpred : syncPred db rid r = false := by
      unfold syncPred
      rcases hc : check_offer_exists_in_db db rid r.title r.offer_type with e | b
      · simp
      · cases b
        · simp
        · exact absurd hc hchk
    simp [hpred]
  · intro rid sheet e
    have hnil : syncCollect (.error e) rid sheet 2 = [] := by
      apply syncCollect_eq_nil
      intro r _
      unfold syncPred check_offer_exists_in_db
      simp
    show (let to_delete := syncCollect (.error e) rid sheet 2;
      (to_delete.reverse.foldl (fun s idx => s.eraseIdx (idx - 2)) sheet, to_delete))
      = (sheet, [])
    rw [hnil]
    rfl

/-- Witness for C4: a sheet with one pending row and an empty offers table
(check returns `.ok false`): the row survives reconciliation; and against an
unavailable store the sheet is returned unchanged with no deletion. -/
theorem c4_witness :
    recGood ∈ (sync_offers_with_db (.ok dbFix) "1" [recGood]).1
    ∧ sync_offers_with_db (.error ()) "1" [recGood] = ([recGood], []) :=
  ⟨c4_never_deletes_unmatched_and_tolerates_outage.1 (.ok dbFix) "1" [recGood] recGood
      (by decide) (by simp [check_offer_exists_in_db, dbFix]),
    c4_never_deletes_unmatched_and_tolerates_outage.2 "1" [recGood] ()⟩

/-- C5: reconciliation is idempotent — for every spreadsheet state and database
state, running `sync_offers_with_db` once and then again with no intervening
database changes performs zero deletions on the second run (and leaves the
sheet exactly as the first run left it). -/
theorem c5_sync_idempotent (db : Except Unit DBState) (rid : String)
    (sheet : List SheetRecord) :
    sync_offers_with_db db rid (sync_offers_with_db db rid sheet).1
      = ((sync_offers_with_db db rid sheet).1, []) := by
  have h1 := sync_offers_with_db_filter db rid sheet
  have hnil : syncCollect db rid (sync_offers_with_db db rid sheet).1 2 = [] := by
    apply syncCollect_eq_nil
    intro r hr
    rw [h1] at hr
    have := List.of_mem_filter hr
    simp only [Bool.not_eq_true'] at this
    simp [this]
  show (let to_delete := syncCollect db rid (sync_offers_with_db db rid sheet).1 2;
    (to_delete.reverse.foldl (fun s idx => s.eraseIdx (idx - 2))
      (sync_offers_with_db db rid sheet).1, to_delete))
    = ((sync_offers_with_db db rid sheet).1, [])
  rw [hnil]
  rfl

/-- C6: for every pending row whose `offer_type` display name has no exact
match in the `offer_types` lookup table, the Writer performs no insert at all
for that row (`insert_offer_to_db` returns `None` with the state untouched),
and the batch loop continues processing the remaining rows with the same
committed database and the same approved count as if the bad row were absent:
only that row is aborted, never the batch. -/
theorem c6_unknown_offer_type_row_scoped (db : DBState) (pre post : List SheetRecord)
    (bad : SheetRecord)
    (hp : (bad.status == "pending") = true)
    (hno : ∀ t ∈ db.offer_types, ¬ ((t.2 == bad.offer_type) = true)) :
    insert_offer_to_db db bad = (db, .noType)
    ∧ (approve_offers db (pre ++ bad :: post) true).db
        = (approve_offers db (pre ++ post) true).db
    ∧ (approve_offers db (pre ++ bad :: post) true).approved_count
      = (approve_offers db (pre ++ post) true).approved_count := by
  have hlook : get_offer_type_id db bad.offer_type = none := by
    unfold get_offer_type_id
    rw [List.find?_eq_none.mpr hno]
    rfl
  have hskip := approveLoop_skip_noType bad hp pre post db 2 db.offer_types rfl hno
  have hmem : bad ∈ List.filter (fun r => r.status == "pending") (pre ++ bad :: post) :=
    List.mem_filter.mpr ⟨by simp, hp⟩
  have h1 : (List.filter (fun r => r.status == "pending") (pre ++ bad :: post)).isEmpty
      = false := by
    rw [Bool.eq_false_iff]
    intro hc
    exact List.ne_nil_of_mem hmem (List.isEmpty_iff.mp hc)
  refine ⟨insert_offer_to_db_noType db bad hlook, ?_⟩
  by_cases h2 : (List.filter (fun r => r.status == "pending") (pre ++ post)).isEmpty = true
  · have hnop : ∀ r ∈ pre ++ post, ¬ ((r.status == "pending") = true) :=
      List.filter_eq_nil_iff.mp (List.isEmpty_iff.mp h2)
    have hloop := approveLoop_no_pending (pre ++ post) db 2 hnop
    simp only [approve_offers]
    rw [if_neg (by rw [h1]; simp), if_neg (by simp), if_pos h2]
    constructor
    · rw [hskip.1, hloop]
    · rw [hskip.2, hloop]
  · simp only [approve_offers]
    rw [if_neg (by rw [h1]; simp), if_neg (by simp), if_neg h2, if_neg (by simp)]
    exact hskip

/-- Witness for C6: approving a sheet holding only an unknown-type pending row
performs no insert, and the run's committed database and approved count match
those of the run on the empty sheet. -/
theorem c6_witness :
    insert_offer_to_db dbFix recBadType = (dbFix, .noType)
    ∧ (approve_offers dbFix ([] ++ recBadType :: []) true).db
        = (approve_offers dbFix ([] ++ []) true).db
    ∧ (approve_offers dbFix ([] ++ recBadType :: []) true).approved_count
      = (approve_offers dbFix ([] ++ []) true).approved_count :=
  c6_unknown_offer_type_row_scoped dbFix [] [] recBadType (by decide) (by decide)

/-- C7: for every pending row that reaches the offer insert, normalization maps
the empty-string values of `valid_start_time`, `valid_end_time` and `end_date`
to `None`, not to empty strings (and keeps non-empty values unchanged): the
offer appended to the transaction state carries `none` exactly for the fields
whose cell was the empty string. -/
theorem c7_empty_fields_become_null (db : DBState) (r : SheetRecord) (k : Nat)
    (hty : get_offer_type_id db r.offer_type = some k) (hk0 : k ≠ 0)
    (hdays : r.valid_days_of_week ≠ .malformed) :
    ∃ o, (insert_offer_to_db db r).1.offers = db.offers ++ [o]
      ∧ o.valid_start_time = (if r.valid_start_time = "" then none
                              else some r.valid_start_time)
      ∧ o.valid_end_time = (if r.valid_end_time = "" then none
                            else some r.valid_end_time)
      ∧ o.end_date = (if r.end_date = "" then none else some r.end_date) := by
  unfold insert_offer_to_db
  have hkb : (k == 0) = false := by simpa using hk0
  cases hvd : r.valid_days_of_week with
  | malformed => exact absurd hvd hdays
  | empty =>
    cases hsb : r.surprise_bag_data with
    | empty => simp [hty, hkb, hvd, hsb]
    | malformed => simp [hty, hkb, hvd, hsb]
    | val sb =>
      rcases hq : sb.price with _ | q
      · simp [hty, hkb, hvd, hsb, hq]
      · rcases he : sb.estimated_value with _ | ev
        · simp [hty, hkb, hvd, hsb, hq, he]
        · simp [hty, hkb, hvd, hsb, hq, he]
  | val xs =>
    cases hsb : r.surprise_bag_data with
    | empty => simp [hty, hkb, hvd, hsb]
    | malformed => simp [hty, hkb, hvd, hsb]
    | val sb =>
      rcases hq : sb.price with _ | q
      · simp [hty, hkb, hvd, hsb, hq]
      · rcases he : sb.estimated_value with _ | ev
        · simp [hty, hkb, hvd, hsb, hq, he]
        · simp [hty, hkb, hvd, hsb, hq, he]

/-- Witness for C7: the row `recGood` has `valid_start_time = ""`,
`valid_end_time = ""` and `end_date = ""`; the inserted offer carries `none`
for all three (never the empty string). -/
theorem c7_witness :
    ∃ o, (insert_offer_to_db dbFix recGood).1.offers = dbFix.offers ++ [o]
      ∧ o.valid_start_time = none ∧ o.valid_end_time = none ∧ o.end_date = none := by
  obtain ⟨o, h1, h2, h3, h4⟩ :=
    c7_empty_fields_become_null dbFix recGood 1 (by decide) (by decide) (by decide)
  exact ⟨o, h1, by rw [h2]; rfl, by rw [h3]; rfl, by rw [h4]; rfl⟩

/-- C8: for every pending row with non-empty, parseable `surprise_bag_data`
whose required keys are present, the inserted SurpriseBag carries
`current_daily_quantity` equal to the parsed `daily_quantity` (a copy made at
creation time) and `total_quantity` equal to the `total_quantity` key lookup
(`none` when the key is absent from the JSON object). -/
theorem c8_surprise_bag_quantity_copy (db : DBState) (r : SheetRecord)
    (k : Nat) (sb : SBJson) (p ev : Int)
    (hty : get_offer_type_id db r.offer_type = some k) (hk0 : k ≠ 0)
    (hdays : r.valid_days_of_week ≠ .malformed)
    (hsb : r.surprise_bag_data = .val sb)
    (hp : sb.price = some p) (he : sb.estimated_value = some ev) :
    (insert_offer_to_db db r).2 = .ok db.next_offer_id
    ∧ ∃ b, (insert_offer_to_db db r).1.surprise_bags = db.surprise_bags ++ [b]
      ∧ b.offer_id = db.next_offer_id
      ∧ b.price = p ∧ b.estimated_value = ev
      ∧ b.daily_quantity = sb.daily_quantity
      ∧ b.current_daily_quantity = sb.daily_quantity
      ∧ b.total_quantity = sb.total_quantity := by
  unfold insert_offer_to_db
  have hkb : (k == 0) = false := by simpa using hk0
  cases hvd : r.valid_days_of_week with
  | malformed => exact absurd hvd hdays
  | empty => simp [hty, hkb, hvd, hsb, hp, he]
  | val xs => simp [hty, hkb, hvd, hsb, hp, he]

/-- Witness for C8: `surprise_bag_data =
{"price": 5, "estimated_value": 12, "daily_quantity": 20}` produces a
SurpriseBag with `current_daily_quantity = 20` and `total_quantity = None`. -/
theorem c8_witness :
    ∃ b, (insert_offer_to_db dbFix recSB).1.surprise_bags = dbFix.surprise_bags ++ [b]
      ∧ b.current_daily_quantity = some 20 ∧ b.total_quantity = none := by
  obtain ⟨-, b, h1, -, -, -, -, h2, h3⟩ :=
    c8_surprise_bag_quantity_copy dbFix recSB 2 ⟨some 5, some 12, some 20, none⟩ 5 12
      (by decide) (by decide) (by decide) (by decide) rfl rfl
  exact ⟨b, h1, by rw [h2], by rw [h3]⟩

/-- C9 counterexample: the final report printed by `approve_offers` does not
state the count of failed rows.  A run with one approved and one failed row
(the claim's "1 approved, 1 failed" scenario) prints exactly the same final
report as a run with one approved and zero failed rows. -/
theorem c9_counterexample :
    (approve_offers dbFix [recGood, recBadType] true).report
      = (approve_offers dbFix [recGood] true).report
    ∧ countFailed (approve_offers dbFix [recGood, recBadType] true).outcomes = 1
    ∧ countFailed (approve_offers dbFix [recGood] true).outcomes = 0
    ∧ (approve_offers dbFix [recGood, recBadType] true).approved_count = 1 := by
  decide

/-- C9 amended: at the end of every `approve_offers` run that reaches the
reporting phase, the operator-visible final report states the count of approved
rows (as both the approved total and the number of rows removed) but not the
count of failed rows: the report is a function of the approved count alone, so
two runs with equal approved counts print identical final reports whatever
their failure counts (failures surface only as per-row error lines). -/
theorem c9_report_depends_only_on_approved_count (db1 db2 : DBState)
    (rs1 rs2 : List SheetRecord)
    (h1 : (rs1.filter (fun r => r.status == "pending")).isEmpty = false)
    (h2 : (rs2.filter (fun r => r.status == "pending")).isEmpty = false)
    (hc : (approve_offers db1 rs1 true).approved_count
        = (approve_offers db2 rs2 true).approved_count) :
    (approve_offers db1 rs1 true).report = (approve_offers db2 rs2 true).report := by
  have e1 : (approve_offers db1 rs1 true).report
      = finalReportLines (approve_offers db1 rs1 true).approved_count := by
    simp only [approve_offers]
    rw [if_neg (by rw [h1]; simp), if_neg (by simp)]
  have e2 : (approve_offers db2 rs2 true).report
      = finalReportLines (approve_offers db2 rs2 true).approved_count := by
    simp only [approve_offers]
    rw [if_neg (by rw [h2]; simp), if_neg (by simp)]
  rw [e1, e2, hc]

/-- Witness for the amended C9: the one-approved-one-failed run and the
one-approved-zero-failed run print the same final report. -/
theorem c9_witness :
    (approve_offers dbFix [recGood, recBadType] true).report
      = (approve_offers dbFix [recGood] true).report :=
  c9_report_depends_only_on_approved_count dbFix dbFix [recGood, recBadType] [recGood]
    (by decide) (by decide) (by decide)

/-- C10: `get_pending_offers_from_sheet` never raises on malformed rows: a row
whose `valid_days_of_week` or `surprise_bag_data` fails JSON parsing (its
normalization yields `none`) is silently omitted while the remaining rows are
still returned unchanged, and every returned entry carries status `"pending"`
and originates from a row of the requested restaurant whose (case-insensitive)
status is pending. -/
theorem c10_malformed_rows_skipped :
    (∀ (rid : String) (pre post : List SheetRecord) (bad : SheetRecord),
      normalize_pending_row bad = none →
      get_pending_offers_from_sheet rid (pre ++ bad :: post)
        = get_pending_offers_from_sheet rid (pre ++ post))
    ∧ (∀ (rid : String) (rows : List SheetRecord) (p : PendingOffer),
      p ∈ get_pending_offers_from_sheet rid rows →
      p.status = "pending"
      ∧ ∃ r ∈ rows, r.restaurant_id = rid
          ∧ pyLower r.status = "pending"
          ∧ normalize_pending_row r = some p) := by
  constructor
  · intro rid pre post bad hbad
    induction pre with
    | nil =>
      simp only [List.nil_append]
      by_cases hg : (bad.restaurant_id == rid && pyLower bad.status == "pending") = true
      · simp only [get_pending_offers_from_sheet, if_pos hg, hbad]
      · simp only [get_pending_offers_from_sheet, if_neg hg]
    | cons q pre ih =>
      simp only [List.cons_append]
      by_cases hg : (q.restaurant_id == rid && pyLower q.status == "pending") = true
      · simp only [get_pending_offers_from_sheet, if_pos hg]
        cases hn : normalize_pending_row q with
        | some p0 => simp only [List.cons_append] at ih; rw [ih]
        | none => simpa using ih
      · simp only [get_pending_offers_from_sheet, if_neg hg]
        simpa using ih
  · intro rid rows
    induction rows with
    | nil => intro p hp; simp [get_pending_offers_from_sheet] at hp
    | cons r rest ih =>
      intro p hp
      by_cases hg : (r.restaurant_id == rid && pyLower r.status == "pending") = true
      · simp only [get_pending_offers_from_sheet, if_pos hg] at hp
        cases hn : normalize_pending_row r with
        | some p0 =>
          rw [hn] at hp
          rcases List.mem_cons.mp hp with hh | hh
          · subst hh
            obtain ⟨hg1, hg2⟩ : _ ∧ _ := by simpa using hg
            exact ⟨normalize_pending_row_status r p hn,
              ⟨r, List.mem_cons_self r rest, hg1, hg2, hn⟩⟩
          · obtain ⟨hst, r', hr', hprops⟩ := ih p hh
            exact ⟨hst, ⟨r', List.mem_cons_of_mem r hr', hprops⟩⟩
        | none =>
          rw [hn] at hp
          obtain ⟨hst, r', hr', hprops⟩ := ih p hp
          exact ⟨hst, ⟨r', List.mem_cons_of_mem r hr', hprops⟩⟩
      · simp only [get_pending_offers_from_sheet, if_neg hg] at hp
        obtain ⟨hst, r', hr', hprops⟩ := ih p hp
        exact ⟨hst, ⟨r', List.mem_cons_of_mem r hr', hprops⟩⟩

/-- The normalized dict produced for `recGood`. -/
def pendGood : PendingOffer :=
  { timestamp := "2025-09-24T12:00:00"
    offer_type := "Percent Discount"
    about := ⟨"10% Off", "Get 10% off", "10% off"⟩
    valid_days_of_week := some [1, 3]
    valid_start_time := none
    valid_end_time := none
    start_date := some "2025-09-24"
    end_date := none
    unique_usage_per_user := false
    status := "pending"
    surprise_bag := none }

/-- Witness for C10: a sheet holding a good row and a row with unparseable
`valid_days_of_week`: the malformed row is silently dropped while the good
row's entry is still returned, and that entry is pending and traceable to a
matching row. -/
theorem c10_witness :
    (get_pending_offers_from_sheet "1" ([recGood] ++ recMalformed :: [])
      = get_pending_offers_from_sheet "1" ([recGood] ++ []))
    ∧ (pendGood.status = "pending"
      ∧ ∃ r ∈ [recGood, recMalformed], r.restaurant_id = "1"
          ∧ pyLower r.status = "pending"
          ∧ normalize_pending_row r = some pendGood) :=
  ⟨c10_malformed_rows_skipped.1 "1" [recGood] [] recMalformed (by decide),
   c10_malformed_rows_skipped.2 "1" [recGood, recMalformed] pendGood (by decide)⟩
